import Mathlib

/-!
Verification development for the `bubblegum_nif` repository.

The definitions below are a shallow embedding of the Rust sources:
  * `src/native/bubblegum_nif/src/merkle.rs` (MerkleTree),
  * `src/native/bubblegum_nif/src/rate_limiter.rs` (RateLimiter, with_retry),
  * `src/native/bubblegum_nif/src/transaction.rs` (send_with_retry),
  * `src/native/bubblegum_nif/src/tree_manager.rs` (TreeManager).

Bytes are modelled as `Nat` (values < 256), digests as `List Nat`
(32 bytes), and the hash function `solana_program::keccak::hash` is
embedded as a full executable Keccak-256 (`keccak256` below, validated
against the standard test vectors), so concrete statements can be
settled by evaluation.  Loops are embedded with structural recursion
(an explicit iteration count where the source uses `while`/`loop`), so
that the kernel can evaluate them.
-/

/-! ## Keccak-256 (the hash used by `solana_program::keccak::hash`) -/

/-- 2^64, the modulus for 64-bit lane arithmetic. -/
def u64Mod : Nat := 18446744073709551616

/-- Rotate a 64-bit lane left by `n` (0 ≤ n < 64). -/
def rol64 (a n : Nat) : Nat :=
  ((a <<< n) ||| (a >>> (64 - n))) % u64Mod

/-- Keccak-f[1600] round constants (decimal, four rounds per row). -/
def keccakRC : List Nat :=
  [[1, 32898, 9223372036854808714, 9223372039002292224],
   [32907, 2147483649, 9223372039002292353, 9223372036854808585],
   [138, 136, 2147516425, 2147483658],
   [2147516555, 9223372036854775947, 9223372036854808713, 9223372036854808579],
   [9223372036854808578, 9223372036854775936, 32778, 9223372039002259466],
   [9223372039002292353, 9223372036854808704, 2147483649, 9223372039002292232]].flatten

/-- Rotation offsets for the rho step, one row per `y`, indexed by lane
position `x + 5*y`. -/
def keccakRho : List Nat :=
  [[0, 1, 62, 28, 27],
   [36, 44, 6, 55, 20],
   [3, 10, 43, 25, 39],
   [41, 45, 15, 21, 8],
   [18, 2, 61, 56, 14]].flatten

/-- Theta step of Keccak-f; the state is 25 lanes, lane `(x, y)` at index
`x + 5*y`. -/
def keccakTheta (A : List Nat) : List Nat :=
  let c := fun x => A.getD x 0 ^^^ A.getD (x + 5) 0 ^^^ A.getD (x + 10) 0 ^^^
      A.getD (x + 15) 0 ^^^ A.getD (x + 20) 0
  let C := [c 0, c 1, c 2, c 3, c 4]
  let d := fun x => C.getD ((x + 4) % 5) 0 ^^^ rol64 (C.getD ((x + 1) % 5) 0) 1
  let D := [d 0, d 1, d 2, d 3, d 4]
  (List.range 25).map fun i => A.getD i 0 ^^^ D.getD (i % 5) 0

/-- Combined rho and pi steps of Keccak-f. -/
def keccakRhoPi (A : List Nat) : List Nat :=
  (List.range 25).foldl
    (fun B i =>
      let x := i % 5
      let y := i / 5
      B.set (y + 5 * ((2 * x + 3 * y) % 5)) (rol64 (A.getD i 0) (keccakRho.getD i 0)))
    (List.replicate 25 0)

/-- Chi step of Keccak-f. -/
def keccakChi (B : List Nat) : List Nat :=
  (List.range 25).map fun i =>
    let x := i % 5
    let y := i / 5
    B.getD i 0 ^^^
      ((B.getD ((x + 1) % 5 + 5 * y) 0 ^^^ (u64Mod - 1)) &&& B.getD ((x + 2) % 5 + 5 * y) 0)

/-- One round of Keccak-f[1600]. -/
def keccakRound (A : List Nat) (rc : Nat) : List Nat :=
  let A2 := keccakChi (keccakRhoPi (keccakTheta A))
  A2.set 0 (A2.getD 0 0 ^^^ rc)

/-- The full Keccak-f[1600] permutation (24 rounds). -/
def keccakF (A : List Nat) : List Nat :=
  keccakRC.foldl keccakRound A

/-- Multi-rate padding for Keccak (delimiter 0x01, rate 136 bytes). -/
def keccakPad (msg : List Nat) : List Nat :=
  let padLen := 136 - msg.length % 136
  if padLen = 1 then msg ++ [0x81]
  else msg ++ [0x01] ++ List.replicate (padLen - 2) 0 ++ [0x80]

/-- Interpret up to 8 bytes as a little-endian 64-bit lane. -/
def bytesToLane (bs : List Nat) : Nat :=
  bs.foldr (fun b acc => acc * 256 + b) 0

/-- Serialize a 64-bit lane as 8 little-endian bytes. -/
def laneToBytes (n : Nat) : List Nat :=
  (List.range 8).map fun i => n / 256 ^ i % 256

/-- Absorb one 136-byte block into the sponge state and permute. -/
def absorbBlock (A : List Nat) (block : List Nat) : List Nat :=
  keccakF ((List.range 25).map fun i =>
    A.getD i 0 ^^^ (if i < 17 then bytesToLane ((block.drop (8 * i)).take 8) else 0))

/-- Absorb a padded message block by block; the first argument is the
number of 136-byte blocks, so the recursion is structural. -/
def absorbBlocks : Nat → List Nat → List Nat → List Nat
  | 0, A, _ => A
  | n + 1, A, bs => absorbBlocks n (absorbBlock A (bs.take 136)) (bs.drop 136)

/-- Keccak-256 of a byte string: 32-byte digest.  This is the hash used by
`solana_program::keccak::hash` in the Rust sources; this implementation
reproduces the standard Keccak-256 test vectors (for the empty string and
for `"abc"`). -/
def keccak256 (msg : List Nat) : List Nat :=
  let p := keccakPad msg
  let A := absorbBlocks (p.length / 136) (List.replicate 25 0) p
  ((A.take 4).map laneToBytes).flatten

/-- The 32-byte all-zero placeholder ("empty node") used by `get_proof`. -/
def zeroDigest : List Nat := List.replicate 32 0

/-! ## MerkleTree (`src/native/bubblegum_nif/src/merkle.rs`)

`nodes` is the `HashMap<Vec<u8>, Vec<u8>>` content-addressed payload
store, embedded as an association list with overwrite-on-insert. -/

structure MerkleTree where
  max_depth : Nat
  nodes : List (List Nat × List Nat)
  leaves : List (List Nat)
deriving DecidableEq

/-- `MerkleTree::new`. -/
def MerkleTree.new (max_depth : Nat) : MerkleTree :=
  { max_depth := max_depth, nodes := [], leaves := [] }

/-- `HashMap::insert` on the association list: overwrite the key if present. -/
def insertNode : List (List Nat × List Nat) → List Nat → List Nat → List (List Nat × List Nat)
  | [], k, v => [(k, v)]
  | (k0, v0) :: rest, k, v =>
    if k0 = k then (k, v) :: rest else (k0, v0) :: insertNode rest k v

/-- `MerkleTree::insert`.  Rust takes `&mut self` and returns
`Result<u32, &'static str>`; this is embedded as a pair of the returned
result and the post-state (unchanged on error). -/
def MerkleTree.insert (t : MerkleTree) (leaf_data : List Nat) :
    Except String Nat × MerkleTree :=
  if t.leaves.length ≥ 2 ^ t.max_depth then (Except.error "Tree is full", t)
  else
    let leaf_hash := keccak256 leaf_data
    (Except.ok t.leaves.length,
      { t with
        leaves := t.leaves ++ [leaf_hash],
        nodes := insertNode t.nodes leaf_hash leaf_data })

/-- The loop body of `MerkleTree::get_proof`: one iteration per level,
carrying the current index, the (unused, but faithfully recomputed)
running hash, and the proof accumulated so far. -/
def getProofGo (leaves : List (List Nat)) :
    Nat → Nat → List Nat → List (List Nat) → List (List Nat)
  | 0, _, _, proof => proof
  | levels + 1, current_index, current_hash, proof =>
    let sibling_index :=
      if current_index % 2 = 0 then current_index + 1 else current_index - 1
    let sibling :=
      if sibling_index < leaves.length then leaves.getD sibling_index [] else zeroDigest
    let proof2 := proof ++ [sibling]
    let next_index := current_index / 2
    let next_hash :=
      if next_index % 2 = 0 then keccak256 (current_hash ++ sibling)
      else keccak256 (sibling ++ current_hash)
    getProofGo leaves levels next_index next_hash proof2

/-- `MerkleTree::get_proof`. -/
def MerkleTree.get_proof (t : MerkleTree) (index : Nat) :
    Except String (List (List Nat)) :=
  if index ≥ t.leaves.length then Except.error "Index out of bounds"
  else Except.ok (getProofGo t.leaves t.max_depth index (t.leaves.getD index []) [])

/-- `MerkleTree::verify_proof`: fold over the proof, combining with the
even/odd rule and halving the index at each step. -/
def MerkleTree.verify_proof (root leaf_hash : List Nat)
    (proof : List (List Nat)) (index : Nat) : Bool :=
  let final := proof.foldl
    (fun (acc : List Nat × Nat) sibling =>
      (if acc.2 % 2 = 0 then keccak256 (acc.1 ++ sibling)
       else keccak256 (sibling ++ acc.1),
       acc.2 / 2))
    (leaf_hash, index)
  final.1 = root

/-- One pass of `current_level.chunks(2)` in `MerkleTree::get_root`:
hash full pairs, carry an unpaired last element unchanged. -/
def pairUp : List (List Nat) → List (List Nat)
  | a :: b :: rest => keccak256 (a ++ b) :: pairUp rest
  | [a] => [a]
  | [] => []

/-- The `while current_level.len() > 1` loop of `MerkleTree::get_root`;
the fuel argument (instantiated with the number of leaves, which bounds
the number of iterations) makes the recursion structural. -/
def rootLoop : Nat → List (List Nat) → List Nat
  | 0, level => level.headD []
  | fuel + 1, level =>
    if level.length ≤ 1 then level.headD [] else rootLoop fuel (pairUp level)

/-- `MerkleTree::get_root`. -/
def MerkleTree.get_root (t : MerkleTree) : List Nat :=
  if t.leaves = [] then zeroDigest
  else rootLoop t.leaves.length t.leaves

/-- Fold `MerkleTree::insert` over a list of payloads, collecting the
returned results in order. -/
def insertAll (t : MerkleTree) : List (List Nat) → List (Except String Nat) × MerkleTree
  | [] => ([], t)
  | p :: ps =>
    let step := t.insert p
    let rest := insertAll step.2 ps
    (step.1 :: rest.1, rest.2)

/-- The proof list returned by `get_proof`, or `[]` if it failed. -/
def proofOrNil (t : MerkleTree) (index : Nat) : List (List Nat) :=
  match t.get_proof index with
  | Except.ok pf => pf
  | Except.error _ => []

/-- The digest `get_proof` placed at position `level`, or `[]`. -/
def proofLevelDigest (t : MerkleTree) (index level : Nat) : List Nat :=
  (proofOrNil t index).getD level []

/-! ## RateLimiter (`src/native/bubblegum_nif/src/rate_limiter.rs`)

Time instants are modelled as natural numbers; `Instant::duration_since`
becomes truncated subtraction (all enqueued instants are in the past in
every reachable state, which the theorems assume explicitly). -/

structure RateLimiter where
  window_size : Nat
  max_requests : Nat
  requests : List Nat
deriving DecidableEq

/-- The `while let Some(front) = ...` prune loop of `check_rate_limit`:
pop from the front while the front entry is strictly older than the
window, stop at the first entry that is not. -/
def pruneOld (now window : Nat) : List Nat → List Nat
  | [] => []
  | t :: rest => if now - t > window then pruneOld now window rest else t :: rest

/-- `RateLimiter::check_rate_limit`.  Rust reads `Instant::now()` and takes
`&mut self`; this is embedded with `now` as an argument, returning the
admission flag and the post-state. -/
def RateLimiter.check_rate_limit (rl : RateLimiter) (now : Nat) : Bool × RateLimiter :=
  let pruned := pruneOld now rl.window_size rl.requests
  if pruned.length < rl.max_requests then
    (true, { rl with requests := pruned ++ [now] })
  else
    (false, { rl with requests := pruned })

/-! ## Retry helpers

`with_retry` (rate_limiter.rs) and `TransactionManager::send_with_retry`
(transaction.rs).  The fallible operation is embedded as a function from
the attempt number (1-based) to that attempt's result; delays are
carried faithfully but only the result and the number of attempts made
are returned. -/

/-- The `loop` of `with_retry` (rate_limiter.rs): `retries` starts at 0 and
counts completed failed attempts; after a failure the loop stops once
`retries >= max_retries`, otherwise sleeps, doubles the delay (capped) and
retries.  Returns the result together with the number of attempts made. -/
def withRetryGo {E A : Type} (op : Nat → Except E A) (max_retries max_delay : Nat)
    (retries delay : Nat) : Except E A × Nat :=
  match op (retries + 1) with
  | Except.ok v => (Except.ok v, retries + 1)
  | Except.error e =>
    if max_retries ≤ retries then (Except.error e, retries + 1)
    else withRetryGo op max_retries max_delay (retries + 1) (min (delay * 2) max_delay)
termination_by max_retries - retries
decreasing_by omega

/-- `with_retry` (rate_limiter.rs). -/
def with_retry {E A : Type} (op : Nat → Except E A)
    (max_retries base_delay max_delay : Nat) : Except E A × Nat :=
  withRetryGo op max_retries max_delay 0 base_delay

/-- The `loop` of `TransactionManager::send_with_retry` (transaction.rs):
`attempt` is incremented at the top of each iteration; after a failure the
loop stops once `attempt >= max_attempts`, wrapping the last error
together with the attempt count (the Rust code formats both into a
`TransactionError` message); otherwise it sleeps, doubles the delay
(capped) and retries. -/
def sendRetryGo {E A : Type} (op : Nat → Except E A) (max_attempts max_delay_ms : Nat)
    (attempt delay_ms : Nat) : Except (Nat × E) A × Nat :=
  match op (attempt + 1) with
  | Except.ok v => (Except.ok v, attempt + 1)
  | Except.error e =>
    if max_attempts ≤ attempt + 1 then (Except.error (attempt + 1, e), attempt + 1)
    else sendRetryGo op max_attempts max_delay_ms (attempt + 1) (min (delay_ms * 2) max_delay_ms)
termination_by max_attempts - attempt
decreasing_by omega

/-- `TransactionManager::send_with_retry` (transaction.rs). -/
def send_with_retry {E A : Type} (op : Nat → Except E A)
    (max_attempts base_delay_ms max_delay_ms : Nat) : Except (Nat × E) A × Nat :=
  sendRetryGo op max_attempts max_delay_ms 0 base_delay_ms

/-! ## TreeManager (`src/native/bubblegum_nif/src/tree_manager.rs`)

Authorities (`Pubkey`) are modelled as natural numbers, the `DashMap` as
an association list, and the pluggable `TreeStorage` trait object as a
pair of functions `load` / `save` passed as parameters.  The `Arc<Mutex<_>>`
sharing is modelled by updating the registry entry whenever the tree
behind the shared handle is mutated. -/

/-- `DashMap::get` on the association list. -/
def lookupTree : List (Nat × MerkleTree) → Nat → Option MerkleTree
  | [], _ => none
  | (k, t) :: rest, a => if k = a then some t else lookupTree rest a

/-- `DashMap::insert` on the association list: overwrite the key if present. -/
def updateTree : List (Nat × MerkleTree) → Nat → MerkleTree → List (Nat × MerkleTree)
  | [], a, t => [(a, t)]
  | (k, u) :: rest, a, t =>
    if k = a then (a, t) :: rest else (k, u) :: updateTree rest a t

/-- `TreeManager::get_or_create_tree`: return the registered tree if
present; otherwise load from storage, falling back to a fresh
`MerkleTree::new(max_depth)`, and register the result. -/
def get_or_create_tree (load : Nat → Except String (Option MerkleTree))
    (trees : List (Nat × MerkleTree)) (authority max_depth : Nat) :
    Except String (MerkleTree × List (Nat × MerkleTree)) :=
  match lookupTree trees authority with
  | some t => Except.ok (t, trees)
  | none =>
    match load authority with
    | Except.error e => Except.error e
    | Except.ok (some stored) => Except.ok (stored, updateTree trees authority stored)
    | Except.ok none =>
      let t := MerkleTree.new max_depth
      Except.ok (t, updateTree trees authority t)

/-- `TreeManager::save_tree_state`: save the registered tree if any,
no-op otherwise. -/
def save_tree_state (save : Nat → MerkleTree → Except String Unit)
    (trees : List (Nat × MerkleTree)) (authority : Nat) : Except String Unit :=
  match lookupTree trees authority with
  | some t => save authority t
  | none => Except.ok ()

/-- `TreeManager::insert_leaf`: get or create the depth-14 tree, insert,
compute the root, then persist; a save failure surfaces as an error but
the in-memory registry keeps the mutated tree. -/
def insert_leaf (load : Nat → Except String (Option MerkleTree))
    (save : Nat → MerkleTree → Except String Unit)
    (trees : List (Nat × MerkleTree)) (authority : Nat) (leaf_data : List Nat) :
    Except String (Nat × List Nat) × List (Nat × MerkleTree) :=
  match get_or_create_tree load trees authority 14 with
  | Except.error e => (Except.error e, trees)
  | Except.ok (t, trees1) =>
    match t.insert leaf_data with
    | (Except.error e, _) => (Except.error e, trees1)
    | (Except.ok index, t2) =>
      let root := t2.get_root
      let trees2 := updateTree trees1 authority t2
      match save_tree_state save trees2 authority with
      | Except.error e => (Except.error e, trees2)
      | Except.ok _ => (Except.ok (index, root), trees2)

/-- `TreeManager::verify_leaf`: get or create the depth-14 tree, compute
the proof and root, delegate to `verify_proof`. -/
def verify_leaf (load : Nat → Except String (Option MerkleTree))
    (trees : List (Nat × MerkleTree)) (authority : Nat)
    (leaf_hash : List Nat) (index : Nat) :
    Except String Bool × List (Nat × MerkleTree) :=
  match get_or_create_tree load trees authority 14 with
  | Except.error e => (Except.error e, trees)
  | Except.ok (t, trees1) =>
    match t.get_proof index with
    | Except.error e => (Except.error e, trees1)
    | Except.ok proof =>
      (Except.ok (MerkleTree.verify_proof t.get_root leaf_hash proof index), trees1)

/-! ## Specification-side definitions

These render the specification's (and the claims') wording, to be
compared with the code-level definitions above. -/

/-- The digests of tree level `l` as the specification describes them:
level 0 is the leaf digests, and each next level is the pairwise
reduction of the previous one (hashing adjacent pairs, carrying an
unpaired last element unchanged, as in `get_root`). -/
def specLevelDigests (leaves : List (List Nat)) : Nat → List (List Nat)
  | 0 => leaves
  | l + 1 => pairUp (specLevelDigests leaves l)

/-- What `get_proof` actually places at each position: the digest from
the LEAF array at position `(index >>> level) ^^^ 1`, whenever that
position is below the total number of leaves, and the all-zero
placeholder otherwise. -/
def proofFromLeaves (leaves : List (List Nat)) (index depth : Nat) : List (List Nat) :=
  (List.range depth).map fun l =>
    let s := (index >>> l) ^^^ 1
    if s < leaves.length then leaves.getD s [] else zeroDigest

/-- What claim C2 states `get_proof` places at each position: the digest
of level `l` at the sibling position when that sibling is within the
level's populated range, and the all-zero placeholder otherwise. -/
def claimProofDigest (t : MerkleTree) (index level : Nat) : List Nat :=
  let s := (index >>> level) ^^^ 1
  let lvl := specLevelDigests t.leaves level
  if s < lvl.length then lvl.getD s [] else zeroDigest

/-- The entries of a request queue that are within the window relative
to `now` (what remains after a complete prune). -/
def freshOnly (now window : Nat) (l : List Nat) : List Nat :=
  l.filter fun t => decide (now - t ≤ window)

/-! ## Concrete instances used by witnesses and counterexamples -/

/-- A depth-1 accumulator holding the single payload `[]` (the state
immediately after inserting payload 0). -/
def treeOneLeaf : MerkleTree := ((MerkleTree.new 1).insert []).2

/-- A depth-2 accumulator holding the payloads `[0]` and `[1]`. -/
def treeTwoLeaves : MerkleTree := (insertAll (MerkleTree.new 2) [[0], [1]]).2

/-- A two-leaf depth-2 accumulator state with literal digests. -/
def treeLiteralTwo : MerkleTree :=
  { max_depth := 2, nodes := [], leaves := [List.replicate 32 7, List.replicate 32 8] }

/-- A storage backend whose load always reports "not found". -/
def loadNone : Nat → Except String (Option MerkleTree) := fun _ => Except.ok none

/-- A storage backend whose save always fails. -/
def saveFailing : Nat → MerkleTree → Except String Unit := fun _ _ => Except.error "disk full"

/-- A storage backend whose save always succeeds. -/
def saveOk : Nat → MerkleTree → Except String Unit := fun _ _ => Except.ok ()

/-! ## Helper lemmas -/

/-- Flipping the lowest bit: `n ^^^ 1` is `n + 1` for even `n` and
`n - 1` for odd `n` (the two phrasings `get_proof` and the spec use for
the sibling index). -/
theorem xorOne (n : Nat) : n ^^^ 1 = if n % 2 = 0 then n + 1 else n - 1 := by
  apply Nat.eq_of_testBit_eq
  intro i
  rw [Nat.testBit_xor]
  cases i with
  | zero =>
    rcases Nat.mod_two_eq_zero_or_one n with h | h
    · rw [if_pos h]
      simp only [Nat.testBit_zero]
      have h1 : (n + 1) % 2 = 1 := by omega
      simp [h, h1]
    · rw [if_neg (by omega)]
      simp only [Nat.testBit_zero]
      have h1 : (n - 1) % 2 = 0 := by omega
      simp [h, h1]
  | succ j =>
    have h1 : (1 : Nat).testBit (j + 1) = false := by
      rw [Nat.testBit_add_one]
      simp
    rw [h1, Bool.xor_false]
    rw [Nat.testBit_add_one, Nat.testBit_add_one]
    rcases Nat.mod_two_eq_zero_or_one n with h | h
    · rw [if_pos h]
      congr 1
      omega
    · rw [if_neg (by omega)]
      congr 1
      omega

theorem proofFromLeaves_zero (leaves : List (List Nat)) (index : Nat) :
    proofFromLeaves leaves index 0 = [] := rfl

theorem proofFromLeaves_succ (leaves : List (List Nat)) (index depth : Nat) :
    proofFromLeaves leaves index (depth + 1) =
      (if (index ^^^ 1) < leaves.length then leaves.getD (index ^^^ 1) [] else zeroDigest) ::
        proofFromLeaves leaves (index / 2) depth := by
  unfold proofFromLeaves
  rw [List.range_succ_eq_map, List.map_cons, List.map_map]
  have hfun :
      ((fun l =>
          let s := (index >>> l) ^^^ 1
          if s < leaves.length then leaves.getD s [] else zeroDigest) ∘ Nat.succ) =
        fun l =>
          let s := ((index / 2) >>> l) ^^^ 1
          if s < leaves.length then leaves.getD s [] else zeroDigest := by
    funext l
    simp only [Function.comp_apply, Nat.succ_eq_add_one]
    have h : index >>> (l + 1) = (index / 2) >>> l := by
      rw [Nat.add_comm l 1, Nat.shiftRight_add, Nat.shiftRight_one]
    rw [h]
  rw [hfun]
  simp

theorem proofFromLeaves_length (leaves : List (List Nat)) (index depth : Nat) :
    (proofFromLeaves leaves index depth).length = depth := by
  simp [proofFromLeaves]

/-- The proof list built by `get_proof`'s loop is exactly
`proofFromLeaves`: at level `l` it reads the leaf array at position
`(index >>> l) ^^^ 1`, guarded by the total leaf count. -/
theorem getProofGo_eq (leaves : List (List Nat)) :
    ∀ (depth current_index : Nat) (current_hash : List Nat) (proof : List (List Nat)),
      getProofGo leaves depth current_index current_hash proof =
        proof ++ proofFromLeaves leaves current_index depth := by
  intro depth
  induction depth with
  | zero => intro ci h acc; simp [getProofGo, proofFromLeaves_zero]
  | succ d ih =>
    intro ci h acc
    rw [getProofGo, ih, proofFromLeaves_succ]
    have hsib : (if ci % 2 = 0 then ci + 1 else ci - 1) = ci ^^^ 1 := (xorOne ci).symm
    rw [hsib]
    simp

/-- `get_proof` on a valid index succeeds with exactly the
`proofFromLeaves` list. -/
theorem get_proof_eq (t : MerkleTree) (index : Nat) (h : index < t.leaves.length) :
    t.get_proof index =
      Except.ok (proofFromLeaves t.leaves index t.max_depth) := by
  unfold MerkleTree.get_proof
  rw [if_neg (by omega)]
  rw [getProofGo_eq]
  simp

theorem insert_of_lt (t : MerkleTree) (p : List Nat)
    (h : t.leaves.length < 2 ^ t.max_depth) :
    t.insert p =
      (Except.ok t.leaves.length,
        { t with
          leaves := t.leaves ++ [keccak256 p],
          nodes := insertNode t.nodes (keccak256 p) p }) := by
  unfold MerkleTree.insert
  rw [if_neg (by omega)]

theorem insert_of_full (t : MerkleTree) (p : List Nat)
    (h : 2 ^ t.max_depth ≤ t.leaves.length) :
    t.insert p = (Except.error "Tree is full", t) := by
  unfold MerkleTree.insert
  rw [if_pos (by omega)]

/-- While capacity remains, the results of consecutive inserts are the
consecutive leaf counts, starting from the count before the first call. -/
theorem insertAll_ok (ps : List (List Nat)) :
    ∀ t : MerkleTree, t.leaves.length + ps.length ≤ 2 ^ t.max_depth →
      (insertAll t ps).1 = (List.range' t.leaves.length ps.length).map Except.ok := by
  induction ps with
  | nil => intro t _; simp [insertAll]
  | cons p ps ih =>
    intro t h
    have hlt : t.leaves.length < 2 ^ t.max_depth := by
      simp only [List.length_cons] at h
      omega
    simp only [insertAll, insert_of_lt t p hlt]
    have h2 := ih
      { t with
        leaves := t.leaves ++ [keccak256 p],
        nodes := insertNode t.nodes (keccak256 p) p }
    simp only [List.length_append, List.length_singleton] at h2
    rw [h2 (by simp only [List.length_cons] at h; omega)]
    simp only [List.length_cons, List.range'_succ, List.map_cons]

/-- The front-prune loop on a time-ordered queue removes exactly the
entries strictly older than the window. -/
theorem pruneOld_eq_filter (now window : Nat) :
    ∀ l : List Nat, List.Pairwise (· ≤ ·) l →
      pruneOld now window l = l.filter fun t => decide (now - t ≤ window) := by
  intro l
  induction l with
  | nil => intro _; rfl
  | cons t rest ih =>
    intro hp
    rw [List.pairwise_cons] at hp
    rw [pruneOld]
    by_cases h : now - t > window
    · rw [if_pos h, ih hp.2]
      rw [List.filter_cons_of_neg (by simp; omega)]
    · rw [if_neg h]
      rw [List.filter_cons_of_pos (by simp; omega)]
      congr 1
      symm
      apply List.filter_eq_self.mpr
      intro u hu
      have := hp.1 u hu
      simp
      omega

theorem lookupTree_updateTree_self :
    ∀ (m : List (Nat × MerkleTree)) (a : Nat) (t : MerkleTree),
      lookupTree (updateTree m a t) a = some t := by
  intro m
  induction m with
  | nil => intro a t; simp [updateTree, lookupTree]
  | cons kv rest ih =>
    intro a t
    obtain ⟨k, u⟩ := kv
    rw [updateTree]
    by_cases h : k = a
    · rw [if_pos h, lookupTree, if_pos rfl]
    · rw [if_neg h, lookupTree, if_neg h, ih]

/-- `with_retry`'s loop on an operation that fails at every attempt:
starting from `retries` completed retries it makes `max maxR retries + 1 - retries`
more attempts, ending at attempt number `max maxR retries + 1` whose error
it returns. -/
theorem withRetryGo_fail {E A : Type} (errs : Nat → E) (maxR maxD retries delay : Nat) :
    withRetryGo (E := E) (A := A) (fun n => Except.error (errs n)) maxR maxD retries delay =
      (Except.error (errs (max maxR retries + 1)), max maxR retries + 1) := by
  rw [withRetryGo]
  by_cases h : maxR ≤ retries
  · simp only [if_pos h]
    rw [Nat.max_eq_right h]
  · simp only [if_neg h]
    rw [withRetryGo_fail errs maxR maxD (retries + 1) (min (delay * 2) maxD)]
    rw [Nat.max_eq_left (by omega), Nat.max_eq_left (by omega)]
termination_by maxR - retries
decreasing_by omega

/-- `send_with_retry`'s loop on an operation that fails at every attempt:
starting after `attempt` attempts it stops at attempt number
`max max_attempts (attempt + 1)`, returning that attempt's error wrapped
with the attempt count. -/
theorem sendRetryGo_fail {E A : Type} (errs : Nat → E) (maxA maxD attempt delay : Nat) :
    sendRetryGo (E := E) (A := A) (fun n => Except.error (errs n)) maxA maxD attempt delay =
      (Except.error (max maxA (attempt + 1), errs (max maxA (attempt + 1))),
        max maxA (attempt + 1)) := by
  rw [sendRetryGo]
  by_cases h : maxA ≤ attempt + 1
  · simp only [if_pos h]
    rw [Nat.max_eq_right h]
  · simp only [if_neg h]
    rw [sendRetryGo_fail errs maxA maxD (attempt + 1) (min (delay * 2) maxD)]
    rw [Nat.max_eq_left (by omega), Nat.max_eq_left (by omega)]
termination_by maxA - attempt
decreasing_by omega

theorem shiftRight_succ_div (i l : Nat) : i >>> (l + 1) = (i / 2) >>> l := by
  rw [Nat.add_comm l 1, Nat.shiftRight_add, Nat.shiftRight_one]

/-- Element `l` of `proofFromLeaves` (for `l` below the depth). -/
theorem proofFromLeaves_getD :
    ∀ (depth : Nat) (leaves : List (List Nat)) (i l : Nat), l < depth →
      (proofFromLeaves leaves i depth).getD l [] =
        (if ((i >>> l) ^^^ 1) < leaves.length
         then leaves.getD ((i >>> l) ^^^ 1) [] else zeroDigest) := by
  intro depth
  induction depth with
  | zero => intro leaves i l hl; omega
  | succ d ih =>
    intro leaves i l hl
    rw [proofFromLeaves_succ]
    cases l with
    | zero => simp
    | succ l =>
      rw [List.getD_cons_succ]
      rw [ih leaves (i / 2) l (by omega)]
      rw [shiftRight_succ_div]

/-- `chunks(2)` carries an unpaired trailing element up unchanged. -/
theorem pairUp_carry :
    ∀ (l : List (List Nat)) (a : List Nat), l.length % 2 = 0 →
      pairUp (l ++ [a]) = pairUp l ++ [a]
  | [], a, _ => by simp [pairUp]
  | [x], a, h => by simp at h
  | x :: y :: rest, a, h => by
    have h2 : rest.length % 2 = 0 := by
      simp only [List.length_cons] at h
      omega
    show pairUp (x :: y :: (rest ++ [a])) = pairUp (x :: y :: rest) ++ [a]
    rw [pairUp, pairUp, pairUp_carry rest a h2]
    rfl

/-! ## Claim theorems -/

/-- C3: starting from an empty accumulator of depth D, each successful
insert returns the leaf count before the call, so the returned indices
are 0, 1, ..., in order; and an insert attempted when the leaf count
equals 2^D fails with the capacity error ("Tree is full") without
changing the tree. -/
theorem C3_insert_indices (D : Nat) (ps : List (List Nat)) (t : MerkleTree) (p : List Nat) :
    (ps.length ≤ 2 ^ D →
      (insertAll (MerkleTree.new D) ps).1 = (List.range ps.length).map Except.ok) ∧
    (t.leaves.length = 2 ^ t.max_depth →
      t.insert p = (Except.error "Tree is full", t)) := by
  constructor
  · intro h
    have h0 := insertAll_ok ps (MerkleTree.new D) (by simpa [MerkleTree.new] using h)
    rw [h0]
    simp [MerkleTree.new, List.range_eq_range']
  · intro h
    exact insert_of_full t p (by omega)

/-- C3 witness: two inserts into an empty depth-1 accumulator return
indices 0 and 1; an insert into a full depth-0 accumulator fails with
"Tree is full" and leaves the tree unchanged. -/
theorem C3_witness :
    (insertAll (MerkleTree.new 1) [[], [2]]).1 = (List.range 2).map Except.ok ∧
    MerkleTree.insert ⟨0, [], [[5]]⟩ [] =
      (Except.error "Tree is full", ⟨0, [], [[5]]⟩) := by
  have h := C3_insert_indices 1 [[], [2]] ⟨0, [], [[5]]⟩ []
  exact ⟨h.1 (by decide), h.2 (by decide)⟩

/-- C5: the root is the bottom-up pairwise reduction of the leaf digests
carrying an unpaired last element up unchanged: the empty tree gives the
all-zero digest, one leaf gives that leaf's digest, two leaves give
Hash(H1||H2), three leaves give Hash(Hash(H1||H2)||H3), and the pairing
pass carries an unpaired trailing element unchanged. -/
theorem C5_root_reduction (d : Nat) (ns : List (List Nat × List Nat)) (h1 h2 h3 : List Nat) :
    MerkleTree.get_root ⟨d, ns, []⟩ = zeroDigest ∧
    MerkleTree.get_root ⟨d, ns, [h1]⟩ = h1 ∧
    MerkleTree.get_root ⟨d, ns, [h1, h2]⟩ = keccak256 (h1 ++ h2) ∧
    MerkleTree.get_root ⟨d, ns, [h1, h2, h3]⟩ = keccak256 (keccak256 (h1 ++ h2) ++ h3) ∧
    (∀ (l : List (List Nat)) (a : List Nat), l.length % 2 = 0 →
      pairUp (l ++ [a]) = pairUp l ++ [a]) :=
  ⟨rfl, rfl, rfl, rfl, pairUp_carry⟩

/-- C5 witness: the one-leaf root equation at a concrete digest, and the
carry property at a concrete (empty, even-length) level. -/
theorem C5_witness :
    MerkleTree.get_root ⟨0, [], [[1]]⟩ = [1] ∧
    pairUp ([] ++ [[9]]) = pairUp [] ++ [[9]] := by
  have h := C5_root_reduction 0 [] [1] [2] [3]
  exact ⟨h.2.1, h.2.2.2.2 [] [9] (by decide)⟩

/-- C9: `get_proof` fails with "Index out of bounds" exactly when the
index is at least the number of leaves, and any successful proof has
length exactly `max_depth`. -/
theorem C9_proof_result (t : MerkleTree) (index : Nat) :
    (t.get_proof index = Except.error "Index out of bounds" ↔ t.leaves.length ≤ index) ∧
    (∀ pf, t.get_proof index = Except.ok pf → pf.length = t.max_depth) := by
  constructor
  · unfold MerkleTree.get_proof
    by_cases h : index ≥ t.leaves.length
    · rw [if_pos h]
      simp
      omega
    · rw [if_neg h]
      simp
      omega
  · intro pf hpf
    by_cases h : index < t.leaves.length
    · rw [get_proof_eq t index h] at hpf
      have h2 := Except.ok.inj hpf
      rw [← h2]
      exact proofFromLeaves_length t.leaves index t.max_depth
    · unfold MerkleTree.get_proof at hpf
      rw [if_pos (by omega)] at hpf
      cases hpf

/-- C9 witness: on a depth-2 accumulator with one leaf, `get_proof 1`
fails with "Index out of bounds" and the successful proof at index 0 has
length 2. -/
theorem C9_witness :
    MerkleTree.get_proof ⟨2, [], [List.replicate 32 1]⟩ 1 =
      Except.error "Index out of bounds" ∧
    ([zeroDigest, zeroDigest] : List (List Nat)).length = 2 := by
  refine ⟨(C9_proof_result ⟨2, [], [List.replicate 32 1]⟩ 1).1.mpr (by decide), ?_⟩
  exact (C9_proof_result ⟨2, [], [List.replicate 32 1]⟩ 0).2 [zeroDigest, zeroDigest] rfl

/-- C4 counterexample: with `max_retries = 3` (the spec's maxAttempts=3,
baseDelay=100, maxDelay=1000 configuration), `with_retry` invokes an
always-failing operation 4 times, not exactly 3 as the claim states. -/
theorem C4_counterexample :
    (with_retry (fun n => (Except.error n : Except Nat Unit)) 3 100 1000).2 = 4 ∧
    (with_retry (fun n => (Except.error n : Except Nat Unit)) 3 100 1000).2 ≠ 3 := by
  have h := withRetryGo_fail (E := Nat) (A := Unit) (fun n => n) 3 1000 0 100
  rw [with_retry] at *
  constructor
  · rw [h]
    simp [Nat.max_def]
  · rw [h]
    simp [Nat.max_def]

/-- C4 amended: on an operation failing at every attempt, `with_retry`
(rate_limiter.rs) invokes it exactly `max_retries + 1` times and returns
the last attempt's error unchanged, while `send_with_retry`
(transaction.rs) invokes it exactly `max(max_attempts, 1)` times and
returns the last attempt's error wrapped with the attempt count. -/
theorem C4_amended {E A : Type} (errs : Nat → E)
    (maxR baseD maxD maxA baseD2 maxD2 : Nat) :
    with_retry (A := A) (fun n => Except.error (errs n)) maxR baseD maxD =
      (Except.error (errs (maxR + 1)), maxR + 1) ∧
    send_with_retry (A := A) (fun n => Except.error (errs n)) maxA baseD2 maxD2 =
      (Except.error (max maxA 1, errs (max maxA 1)), max maxA 1) := by
  constructor
  · rw [with_retry, withRetryGo_fail]
    simp
  · rw [send_with_retry, sendRetryGo_fail]

/-- C2 amended: for a valid index, the digest `get_proof` places at each
level `l` below `max_depth` is the digest from the LEAF array at
position `(index >>> l) ^^^ 1` whenever that position is below the total
number of leaves (not the populated range of level `l`), and the
all-zero placeholder otherwise. -/
theorem C2_amended (t : MerkleTree) (index : Nat) (h : index < t.leaves.length)
    (level : Nat) (hl : level < t.max_depth) :
    proofLevelDigest t index level =
      (if ((index >>> level) ^^^ 1) < t.leaves.length
       then t.leaves.getD ((index >>> level) ^^^ 1) [] else zeroDigest) := by
  unfold proofLevelDigest proofOrNil
  rw [get_proof_eq t index h]
  exact proofFromLeaves_getD t.max_depth t.leaves index level hl

/-- C2 amended witness: level 0 of the proof for index 1 on a two-leaf
literal tree is the leaf digest at position 0. -/
theorem C2_amended_witness :
    proofLevelDigest treeLiteralTwo 1 0 =
      (if ((1 >>> 0) ^^^ 1) < treeLiteralTwo.leaves.length
       then treeLiteralTwo.leaves.getD ((1 >>> 0) ^^^ 1) [] else zeroDigest) :=
  C2_amended treeLiteralTwo 1 (by decide) 0 (by decide)

/-- C6: starting from a reachable limiter state (time-ordered queue of
past instants, length at most `max_requests`), `check_rate_limit` first
removes exactly the entries strictly older than the window, then either
appends `now` and admits, or rejects with no further change; afterwards
every retained entry is within the window of `now`, the queue length is
at most `max_requests`, and the state invariant is preserved. -/
theorem C6_rate_limit (rl : RateLimiter) (now : Nat)
    (hsorted : List.Pairwise (· ≤ ·) rl.requests)
    (hpast : ∀ u ∈ rl.requests, u ≤ now)
    (hlen : rl.requests.length ≤ rl.max_requests) :
    pruneOld now rl.window_size rl.requests = freshOnly now rl.window_size rl.requests ∧
    ((rl.check_rate_limit now).1 = true ↔
      (freshOnly now rl.window_size rl.requests).length < rl.max_requests) ∧
    ((rl.check_rate_limit now).1 = true →
      (rl.check_rate_limit now).2.requests =
        freshOnly now rl.window_size rl.requests ++ [now]) ∧
    ((rl.check_rate_limit now).1 = false →
      (rl.check_rate_limit now).2.requests = freshOnly now rl.window_size rl.requests) ∧
    (∀ u ∈ (rl.check_rate_limit now).2.requests, now - u ≤ rl.window_size) ∧
    (rl.check_rate_limit now).2.requests.length ≤ rl.max_requests ∧
    List.Pairwise (· ≤ ·) (rl.check_rate_limit now).2.requests ∧
    (∀ u ∈ (rl.check_rate_limit now).2.requests, u ≤ now) := by
  have hprune : pruneOld now rl.window_size rl.requests =
      freshOnly now rl.window_size rl.requests :=
    pruneOld_eq_filter now rl.window_size rl.requests hsorted
  have hmemF : ∀ u ∈ freshOnly now rl.window_size rl.requests,
      u ≤ now ∧ now - u ≤ rl.window_size := by
    intro u hu
    rw [freshOnly, List.mem_filter] at hu
    exact ⟨hpast u hu.1, by simpa using hu.2⟩
  have hFsorted : List.Pairwise (· ≤ ·) (freshOnly now rl.window_size rl.requests) :=
    hsorted.filter _
  have hFlen : (freshOnly now rl.window_size rl.requests).length ≤ rl.requests.length :=
    List.length_filter_le _ _
  by_cases hc : (freshOnly now rl.window_size rl.requests).length < rl.max_requests
  · have hcall : rl.check_rate_limit now =
        (true, { rl with requests := freshOnly now rl.window_size rl.requests ++ [now] }) := by
      simp only [RateLimiter.check_rate_limit]
      rw [hprune, if_pos hc]
    rw [hcall]
    refine ⟨hprune, by simpa using hc, fun _ => rfl, by simp, ?_, ?_, ?_, ?_⟩
    · intro u hu
      rcases List.mem_append.mp hu with h | h
      · exact (hmemF u h).2
      · rw [List.mem_singleton.mp h]
        simp
    · simp only [List.length_append, List.length_singleton]
      omega
    · rw [List.pairwise_append]
      refine ⟨hFsorted, List.pairwise_singleton _ _, ?_⟩
      intro x hx y hy
      rw [List.mem_singleton.mp hy]
      exact (hmemF x hx).1
    · intro u hu
      rcases List.mem_append.mp hu with h | h
      · exact (hmemF u h).1
      · rw [List.mem_singleton.mp h]
  · have hcall : rl.check_rate_limit now =
        (false, { rl with requests := freshOnly now rl.window_size rl.requests }) := by
      simp only [RateLimiter.check_rate_limit]
      rw [hprune, if_neg hc]
    rw [hcall]
    refine ⟨hprune, by simpa using hc, by simp, fun _ => rfl, ?_, ?_, hFsorted, ?_⟩
    · intro u hu
      exact (hmemF u hu).2
    · show (freshOnly now rl.window_size rl.requests).length ≤ rl.max_requests
      omega
    · intro u hu
      exact (hmemF u hu).1

/-- C6 witness: with window 10, capacity 2, queue [1, 5] and now = 12,
the prune removes exactly the stale entry 1, the call admits, and the
resulting queue length is within capacity. -/
theorem C6_witness :
    pruneOld 12 10 [1, 5] = freshOnly 12 10 [1, 5] ∧
    (((⟨10, 2, [1, 5]⟩ : RateLimiter).check_rate_limit 12).1 = true ↔
      (freshOnly 12 10 [1, 5]).length < 2) ∧
    ((⟨10, 2, [1, 5]⟩ : RateLimiter).check_rate_limit 12).2.requests.length ≤ 2 := by
  have h := C6_rate_limit ⟨10, 2, [1, 5]⟩ 12 (by decide) (by decide) (by decide)
  exact ⟨h.1, h.2.1, h.2.2.2.2.2.1⟩

/-- C7: if the in-memory insert succeeds but the subsequent save fails,
`insert_leaf` returns the save error while the in-memory registry keeps
the mutated tree (the inserted leaf hash is appended, with no rollback). -/
theorem C7_persist_failure (load : Nat → Except String (Option MerkleTree))
    (save : Nat → MerkleTree → Except String Unit)
    (trees trees1 : List (Nat × MerkleTree)) (a idx : Nat) (p : List Nat)
    (t t2 : MerkleTree) (e : String)
    (h1 : get_or_create_tree load trees a 14 = Except.ok (t, trees1))
    (h2 : t.insert p = (Except.ok idx, t2))
    (h3 : save a t2 = Except.error e) :
    insert_leaf load save trees a p = (Except.error e, updateTree trees1 a t2) ∧
    lookupTree (updateTree trees1 a t2) a = some t2 ∧
    t2.leaves = t.leaves ++ [keccak256 p] := by
  have hlook := lookupTree_updateTree_self trees1 a t2
  refine ⟨?_, hlook, ?_⟩
  · have hsave : save_tree_state save (updateTree trees1 a t2) a = Except.error e := by
      rw [save_tree_state, hlook]
      exact h3
    rw [insert_leaf]
    split
    · next heq =>
      rw [h1] at heq
      simp at heq
    · next t' trees1' heq =>
      rw [h1] at heq
      simp only [Except.ok.injEq, Prod.mk.injEq] at heq
      obtain ⟨rfl, rfl⟩ := heq
      split
      · next heq2 =>
        rw [h2] at heq2
        simp at heq2
      · next index t2' heq2 =>
        rw [h2] at heq2
        simp only [Prod.mk.injEq, Except.ok.injEq] at heq2
        obtain ⟨rfl, rfl⟩ := heq2
        simp only [hsave]
  · have hnotfull : ¬ t.leaves.length ≥ 2 ^ t.max_depth := by
      intro hge
      rw [insert_of_full t p hge] at h2
      simp at h2
    rw [insert_of_lt t p (by omega)] at h2
    have h4 := congrArg Prod.snd h2
    simp only [] at h4
    rw [← h4]

/-- C7 witness: on an empty manager with a failing store, inserting the
empty payload for authority 0 surfaces the save error while the registry
keeps the tree with the new leaf. -/
theorem C7_witness :
    insert_leaf loadNone saveFailing [] 0 [] =
      (Except.error "disk full",
        updateTree (updateTree [] 0 (MerkleTree.new 14)) 0 (((MerkleTree.new 14).insert []).2)) ∧
    lookupTree
        (updateTree (updateTree [] 0 (MerkleTree.new 14)) 0 (((MerkleTree.new 14).insert []).2))
        0 =
      some (((MerkleTree.new 14).insert []).2) ∧
    (((MerkleTree.new 14).insert []).2).leaves = ([] : List (List Nat)) ++ [keccak256 []] := by
  refine C7_persist_failure loadNone saveFailing [] (updateTree [] 0 (MerkleTree.new 14)) 0 0 []
    (MerkleTree.new 14) (((MerkleTree.new 14).insert []).2) "disk full" rfl ?_ rfl
  rw [insert_of_lt (MerkleTree.new 14) [] (by decide)]
  rfl

/-- C10: when no tree is registered or stored for an authority, both
`insert_leaf` and `verify_leaf` register a tree of `max_depth` exactly
14 (callers cannot choose the depth), and a depth-14 tree rejects an
insert exactly when it already holds 2^14 = 16384 leaves. -/
theorem C10_depth_always_14 (load : Nat → Except String (Option MerkleTree))
    (save : Nat → MerkleTree → Except String Unit)
    (trees : List (Nat × MerkleTree)) (a idx : Nat) (p lh : List Nat) (t : MerkleTree)
    (hmem : lookupTree trees a = none) (hload : load a = Except.ok none)
    (hd : t.max_depth = 14) :
    Option.map MerkleTree.max_depth (lookupTree (insert_leaf load save trees a p).2 a) =
      some 14 ∧
    Option.map MerkleTree.max_depth (lookupTree (verify_leaf load trees a lh idx).2 a) =
      some 14 ∧
    ((t.insert p).1 = Except.error "Tree is full" ↔ 16384 ≤ t.leaves.length) := by
  have hgoc : get_or_create_tree load trees a 14 =
      Except.ok (MerkleTree.new 14, updateTree trees a (MerkleTree.new 14)) := by
    rw [get_or_create_tree, hmem, hload]
  have hcap : (2 : Nat) ^ t.max_depth = 16384 := by
    rw [hd]
    norm_num
  have hins := insert_of_lt (MerkleTree.new 14) p (by decide)
  refine ⟨?_, ?_, ?_⟩
  · rw [insert_leaf]
    split
    · next heq =>
      rw [hgoc] at heq
      simp at heq
    · next t' trees1' heq =>
      rw [hgoc] at heq
      simp only [Except.ok.injEq, Prod.mk.injEq] at heq
      obtain ⟨rfl, rfl⟩ := heq
      split
      · next heq2 =>
        rw [hins] at heq2
        simp at heq2
      · next index t2' heq2 =>
        rw [hins] at heq2
        simp only [Prod.mk.injEq, Except.ok.injEq] at heq2
        obtain ⟨rfl, rfl⟩ := heq2
        dsimp only
        split
        all_goals simp [lookupTree_updateTree_self, MerkleTree.new]
  · rw [verify_leaf]
    split
    · next heq =>
      rw [hgoc] at heq
      simp at heq
    · next t' trees1' heq =>
      rw [hgoc] at heq
      simp only [Except.ok.injEq, Prod.mk.injEq] at heq
      obtain ⟨rfl, rfl⟩ := heq
      split
      all_goals simp [lookupTree_updateTree_self, MerkleTree.new]
  · constructor
    · intro herr
      by_contra hnot
      rw [insert_of_lt t p (by omega)] at herr
      simp at herr
    · intro hge
      rw [insert_of_full t p (by omega)]

/-- C10 witness: on an empty manager with an empty store, both
operations register a depth-14 tree for authority 0, and the fresh
depth-14 tree is not full. -/
theorem C10_witness :
    Option.map MerkleTree.max_depth (lookupTree (insert_leaf loadNone saveOk [] 0 []).2 0) =
      some 14 ∧
    Option.map MerkleTree.max_depth (lookupTree (verify_leaf loadNone [] 0 [] 0).2 0) =
      some 14 ∧
    (((MerkleTree.new 14).insert []).1 = Except.error "Tree is full" ↔
      16384 ≤ (MerkleTree.new 14).leaves.length) :=
  C10_depth_always_14 loadNone saveOk [] 0 0 [] [] (MerkleTree.new 14) rfl rfl rfl

set_option maxRecDepth 100000 in
/-- C1: the claimed roundtrip fails on the code: on a depth-1 accumulator,
immediately after inserting payload 0 (the empty byte string),
`verify_proof(get_root(), Hash(payload_0), get_proof(0), 0)` returns
false even though index 0 is valid — `get_proof` pads with the zero
placeholder while `get_root` carries the lone leaf up unchanged, so the
two sides disagree (the repository's own `test_tree_manager`, which
asserts this roundtrip at depth 14, fails the same way). -/
theorem C1_roundtrip_fails :
    MerkleTree.verify_proof treeOneLeaf.get_root (keccak256 [])
      (proofOrNil treeOneLeaf 0) 0 = false ∧
    treeOneLeaf.leaves.length = 1 := by
  decide

set_option maxRecDepth 100000 in
/-- C2 counterexample: on a depth-2 accumulator holding payloads `[0]`
and `[1]`, the digest `get_proof 0` places at level 1 is the LEAF digest
at position 1, not the all-zero placeholder the claim requires (the
sibling position 1 is outside level 1's populated range, which holds a
single digest). -/
theorem C2_counterexample :
    proofLevelDigest treeTwoLeaves 0 1 ≠ claimProofDigest treeTwoLeaves 0 1 ∧
    claimProofDigest treeTwoLeaves 0 1 = zeroDigest ∧
    treeTwoLeaves.leaves.length = 2 ∧
    treeTwoLeaves.max_depth = 2 := by
  decide
